import Mathlib

/-!
Verification of the imageServer repository (index.js, migrate.js) against its
natural-language specification.

The embedding translates the source's data model and request handlers into
executable Lean definitions:

* `Car`, `ImageDoc` mirror the mongoose `carSchema` / `imageSchema`
  (`timestamps: true` gives every document `createdAt` / `updatedAt`; they are
  modelled as `Option Nat` millisecond timestamps so that the JavaScript
  truthiness fallbacks `a || b` on possibly-missing fields stay visible).
* the Redis cache is an association list of `CacheEntry` (key, value, ttl);
  reads model within-TTL lookups, `setInCache` prepends (first match wins on
  read, which is overwrite semantics).
* each Express route of index.js becomes a pure function from a `SysState`
  (mongo cars, mongo image documents, the S3 "own" store, the cache) to a
  response, the resulting cache, and the ordered list of store/cache effects
  the handler performed.
* migrate.js's `migrateCar` / the origin pass of `runMigration` become pure
  functions on a `MigState` (supabase rows, object storage, the shared cache,
  the process-local `idToPathMap`).

The pixel-level transforms (sharp resize / brand compositing) are collaborator
functions passed in as parameters, as the spec declares them out of scope.
-/

namespace ImageServer

/-- Image binary payloads are modelled as lists of bytes. -/
abbrev Bytes := List Nat

/-- One element of `carSchema.images`: a position paired with the `_id` of an
`Image` document (mongoose `{ positionIdentifier, imageId }`). -/
structure ImageEntry where
  positionIdentifier : Nat
  imageId : Nat
deriving DecidableEq, Repr

/-- A mongoose `Car` document (`carSchema` with `timestamps: true`). -/
structure Car where
  vin : String
  images : List ImageEntry
  linked : Bool
  createdAt : Option Nat
  updatedAt : Option Nat
deriving DecidableEq, Repr

/-- A mongoose `Image` document: `_id` and the binary `image` buffer. -/
structure ImageDoc where
  id : Nat
  image : Bytes
deriving DecidableEq, Repr

/-- One object of the S3/MinIO "own" folder, as returned by
`findFromOwnStore`: a vin, the parsed position and the file bytes. -/
structure OwnImage where
  vin : String
  positionIdentifier : Nat
  bytes : Bytes
deriving DecidableEq, Repr

/-- The JSON body produced by `GET /images/v1/status/:vin`. -/
structure StatusResponse where
  success : Bool
  found : Bool
  images : List String
  photofairy : Option Bool
  createdAt : Option Nat
  updatedAt : Option Nat
deriving DecidableEq, Repr

/-- Values stored in the Redis cache: image payloads, serialized status
responses, serialized changed-since responses. -/
inductive CacheVal where
  | img (b : Bytes)
  | status (r : StatusResponse)
  | changes (vins : List String)
deriving DecidableEq, Repr

/-- One Redis entry: key, value and the TTL (seconds) it was set with. -/
structure CacheEntry where
  key : String
  val : CacheVal
  ttl : Nat
deriving DecidableEq, Repr

/-- Cache TTL constants from index.js (`CACHE_TTL`), in seconds. -/
def CACHE_TTL_IMAGE : Nat := 30 * 60
def CACHE_TTL_STATUS : Nat := 5 * 60
def CACHE_TTL_CHANGES : Nat := 60

/-- Argument tuples accepted by index.js's `getCacheKey`. -/
inductive CacheKeyReq where
  | image (vin : String) (positionIdentifier : Nat) (shrink : Option Nat) (brand : Option String)
  | status (vin : String)
  | changes (seconds : String)
deriving DecidableEq, Repr

/-- index.js `getCacheKey`: builds the namespaced cache key. -/
def getCacheKey : CacheKeyReq → String
  | .image vin positionIdentifier shrink brand =>
      "image:" ++ vin ++ ":" ++ toString positionIdentifier ++ ":" ++
        (match shrink with | some s => toString s | none => "original") ++ ":" ++
        (match brand with | some b => b | none => "none")
  | .status vin => "status:" ++ vin
  | .changes seconds => "changes:" ++ seconds

/-- index.js `getFromCache` (within-TTL read): first entry with the key. -/
def getFromCache (cache : List CacheEntry) (key : String) : Option CacheVal :=
  (cache.find? (fun e => e.key = key)).map (fun e => e.val)

/-- index.js `setInCache` (`redis.setex`): prepend, so the new value shadows
any older entry under the same key. -/
def setInCache (cache : List CacheEntry) (key : String) (data : CacheVal) (ttl : Nat) :
    List CacheEntry :=
  ⟨key, data, ttl⟩ :: cache

/-- The JavaScript regex `/^\w{17}$/` used by every VIN-taking route:
exactly 17 word characters (letters, digits or underscore). -/
def testVinRegex (s : String) : Bool :=
  s.length = 17 && s.toList.all (fun c => c.isAlphanum || c = '_')

/-- Spec-side predicate (claim C8's wording): a 17-character uppercase
alphanumeric string. -/
def isUpperAlnumVin (s : String) : Bool :=
  s.length = 17 && s.toList.all (fun c => c.isUpper || c.isDigit)

/-- Observable store/cache accesses a request handler performs, in order. -/
inductive Effect where
  | carQuery
  | imageQuery
  | ownQuery
  | cacheGet (key : String)
  | cacheSet (key : String)
deriving DecidableEq, Repr

/-- The state index.js operates on: the mongo `Car` collection, the mongo
`Image` collection, the S3 own-folder listing, and the Redis cache. -/
structure SysState where
  cars : List Car
  imageDocs : List ImageDoc
  ownStore : List OwnImage
  cache : List CacheEntry
deriving DecidableEq, Repr

/-- Mongo `Car.findOne({ vin })`: the first document with that vin. -/
def findCar (cars : List Car) (vin : String) : Option Car :=
  cars.find? (fun c => c.vin = vin)

/-- Mongo `Image.findOne({ _id })`. -/
def findImageDoc (docs : List ImageDoc) (imageId : Nat) : Option ImageDoc :=
  docs.find? (fun d => d.id = imageId)

/-- index.js `findFromOwnStore`: the own-folder objects for a vin. -/
def findFromOwnStore (ownStore : List OwnImage) (vin : String) : List OwnImage :=
  ownStore.filter (fun o => o.vin = vin)

/-- index.js `handleCarData`: cache check for the original image, then either
the mongo image document (when a car record exists) or the own-store fallback.
Returns the bytes (if any), the cache after the call, and the effect trace of
the call (the `Car.findOne` preceding it in each route is recorded by the
route model itself). -/
def handleCarData (st : SysState) (carData : Option Car) (vin : String)
    (positionIdentifier : Nat) : Option Bytes × List CacheEntry × List Effect :=
  let cacheKey := getCacheKey (.image vin positionIdentifier none none)
  match getFromCache st.cache cacheKey with
  | some (.img b) => (some b, st.cache, [Effect.cacheGet cacheKey])
  | _ =>
    match carData with
    | none =>
      let localImages := findFromOwnStore st.ownStore vin
      if localImages.isEmpty then
        (none, st.cache, [Effect.cacheGet cacheKey, Effect.ownQuery])
      else
        match localImages.find? (fun o => o.positionIdentifier = positionIdentifier) with
        | none => (none, st.cache, [Effect.cacheGet cacheKey, Effect.ownQuery])
        | some oi =>
            (some oi.bytes, setInCache st.cache cacheKey (.img oi.bytes) CACHE_TTL_IMAGE,
             [Effect.cacheGet cacheKey, Effect.ownQuery, Effect.cacheSet cacheKey])
    | some car =>
      match car.images.find? (fun e => e.positionIdentifier = positionIdentifier) with
      | none => (none, st.cache, [Effect.cacheGet cacheKey])
      | some e =>
        match findImageDoc st.imageDocs e.imageId with
        | none => (none, st.cache, [Effect.cacheGet cacheKey, Effect.imageQuery])
        | some doc =>
            (some doc.image, setInCache st.cache cacheKey (.img doc.image) CACHE_TTL_IMAGE,
             [Effect.cacheGet cacheKey, Effect.imageQuery, Effect.cacheSet cacheKey])

/-- index.js `postProcessImage`: when a `shrink` query parameter is given,
check the shrink-variant cache key, otherwise resize (through the sharp
collaborator `resize`) and cache the result. -/
def postProcessImage (resize : Bytes → Nat → Bytes) (cache : List CacheEntry)
    (vin : String) (positionIdentifier : Nat) (shrink : Option Nat) (img : Bytes) :
    Bytes × List CacheEntry × List Effect :=
  match shrink with
  | none => (img, cache, [])
  | some w =>
    let cacheKey := getCacheKey (.image vin positionIdentifier (some w) none)
    match getFromCache cache cacheKey with
    | some (.img b) => (b, cache, [Effect.cacheGet cacheKey])
    | _ =>
      let pic := resize img w
      (pic, setInCache cache cacheKey (.img pic) CACHE_TTL_IMAGE,
       [Effect.cacheGet cacheKey, Effect.cacheSet cacheKey])

/-- Responses of the image-serving routes. -/
inductive ImgResp where
  | ok (b : Bytes)
  | notFound
  | invalidVin
  | invalidBrand
deriving DecidableEq, Repr

/-- Result of one image-route request: response, cache afterwards, effects. -/
structure ImgResult where
  resp : ImgResp
  cache : List CacheEntry
  effects : List Effect
deriving DecidableEq, Repr

/-- Route `GET /images/v1/raw/:vin/:positionIdentifier`: VIN regex check,
then `Car.findOne`, then `handleCarData`, then `postProcessImage`. -/
def rawEndpoint (resize : Bytes → Nat → Bytes) (st : SysState) (vin : String)
    (positionIdentifier : Nat) (shrink : Option Nat) : ImgResult :=
  if testVinRegex vin = false then ⟨.invalidVin, st.cache, []⟩
  else
    match handleCarData st (findCar st.cars vin) vin positionIdentifier with
    | (none, c1, e1) => ⟨.notFound, c1, Effect.carQuery :: e1⟩
    | (some b, c1, e1) =>
      match postProcessImage resize c1 vin positionIdentifier shrink b with
      | (b2, c2, e2) => ⟨.ok b2, c2, Effect.carQuery :: (e1 ++ e2)⟩

/-- Route `GET /images/v1/brand/:vin/:positionIdentifier`: like raw, but the
brand overlay (collaborator `brandFn`, default brand `"BRAND"`) is composited
when `positionIdentifier == 1`. -/
def brandV1Endpoint (resize : Bytes → Nat → Bytes) (brandFn : String → Bytes → Bytes)
    (st : SysState) (vin : String) (positionIdentifier : Nat) (shrink : Option Nat) :
    ImgResult :=
  if testVinRegex vin = false then ⟨.invalidVin, st.cache, []⟩
  else
    match handleCarData st (findCar st.cars vin) vin positionIdentifier with
    | (none, c1, e1) => ⟨.notFound, c1, Effect.carQuery :: e1⟩
    | (some b, c1, e1) =>
      match postProcessImage resize c1 vin positionIdentifier shrink b with
      | (b2, c2, e2) =>
        ⟨.ok (if positionIdentifier = 1 then brandFn "BRAND" b2 else b2), c2,
          Effect.carQuery :: (e1 ++ e2)⟩

/-- The closed set of brand identifiers (keys of index.js `BRANDS`). -/
def BRANDS_keys : List String := ["BRAND", "BRANDDSG", "BRANDAPPROVED", "BRANDBOR"]

/-- Route `GET /images/v2/brand/:brandId/:vin/:positionIdentifier` (regex
route): brandId membership check first, then the VIN check, then the same
pipeline as v1 with the requested brand. -/
def brandV2Endpoint (resize : Bytes → Nat → Bytes) (brandFn : String → Bytes → Bytes)
    (st : SysState) (brandId : String) (vin : String) (positionIdentifier : Nat)
    (shrink : Option Nat) : ImgResult :=
  if BRANDS_keys.contains brandId = false then ⟨.invalidBrand, st.cache, []⟩
  else if testVinRegex vin = false then ⟨.invalidVin, st.cache, []⟩
  else
    match handleCarData st (findCar st.cars vin) vin positionIdentifier with
    | (none, c1, e1) => ⟨.notFound, c1, Effect.carQuery :: e1⟩
    | (some b, c1, e1) =>
      match postProcessImage resize c1 vin positionIdentifier shrink b with
      | (b2, c2, e2) =>
        ⟨.ok (if positionIdentifier = 1 then brandFn brandId b2 else b2), c2,
          Effect.carQuery :: (e1 ++ e2)⟩

/-- Stable insertion into a list sorted by a numeric key (the comparator
`(a, b) => a.positionIdentifier - b.positionIdentifier`). -/
def insertSortedBy {α : Type} (key : α → Nat) (e : α) : List α → List α
  | [] => [e]
  | x :: xs => if key e ≤ key x then e :: x :: xs else x :: insertSortedBy key e xs

/-- Stable sort by a numeric key, modelling `Array.prototype.sort` with the
position comparator used by the status route. -/
def sortBy {α : Type} (key : α → Nat) : List α → List α
  | [] => []
  | x :: xs => insertSortedBy key x (sortBy key xs)

/-- The negative status body cached by the status route
(`{ success: true, found: false }`). -/
def notFoundResponse : StatusResponse :=
  ⟨true, false, [], none, none, none⟩

/-- Responses of the status route. -/
inductive StatusResp where
  | invalidVin
  | ok (r : StatusResponse)
deriving DecidableEq, Repr

/-- Route `GET /images/v1/status/:vin`: VIN check, cache check (before any
store access), then `Car.findOne`, then the own-store fallback; negative
results are cached too. `photofairy` is `!carData.local` on the own-store
path and `true` (undefined `local`) on the mongo path. -/
def statusEndpoint (st : SysState) (vin : String) :
    StatusResp × List CacheEntry × List Effect :=
  if testVinRegex vin = false then (.invalidVin, st.cache, [])
  else
    let cacheKey := getCacheKey (.status vin)
    match getFromCache st.cache cacheKey with
    | some (.status r) => (.ok r, st.cache, [Effect.cacheGet cacheKey])
    | _ =>
      match findCar st.cars vin with
      | some carData =>
        let r : StatusResponse :=
          { success := true, found := true,
            images := (sortBy (fun e => e.positionIdentifier) carData.images).map
              (fun e => "/" ++ vin ++ "/" ++ toString e.positionIdentifier),
            photofairy := some true,
            createdAt := carData.createdAt, updatedAt := carData.updatedAt }
        (.ok r, setInCache st.cache cacheKey (.status r) CACHE_TTL_STATUS,
         [Effect.cacheGet cacheKey, Effect.carQuery, Effect.cacheSet cacheKey])
      | none =>
        let localImages := findFromOwnStore st.ownStore vin
        if localImages.isEmpty then
          (.ok notFoundResponse,
           setInCache st.cache cacheKey (.status notFoundResponse) CACHE_TTL_STATUS,
           [Effect.cacheGet cacheKey, Effect.carQuery, Effect.ownQuery,
            Effect.cacheSet cacheKey])
        else
          let r : StatusResponse :=
            { success := true, found := true,
              images := (sortBy (fun o => o.positionIdentifier) localImages).map
                (fun o => "/" ++ vin ++ "/" ++ toString o.positionIdentifier),
              photofairy := some false,
              createdAt := none, updatedAt := none }
          (.ok r, setInCache st.cache cacheKey (.status r) CACHE_TTL_STATUS,
           [Effect.cacheGet cacheKey, Effect.carQuery, Effect.ownQuery,
            Effect.cacheSet cacheKey])

/-- Route `GET /images/v1/status/changedsince/:seconds`: cache check, then the
mongo query `Car.find({ updatedAt: { $gte: Date.now() - sec * 1000 } })`,
mapped to the vins. -/
def changedsinceEndpoint (st : SysState) (now sec : Nat) :
    List String × List CacheEntry × List Effect :=
  let cacheKey := getCacheKey (.changes (toString sec))
  match getFromCache st.cache cacheKey with
  | some (.changes d) => (d, st.cache, [Effect.cacheGet cacheKey])
  | _ =>
    let timestamp := now - sec * 1000
    let data := st.cars.filter (fun c => c.updatedAt.any (fun u => timestamp ≤ u))
    let response := data.map (fun c => c.vin)
    (response, setInCache st.cache cacheKey (.changes response) CACHE_TTL_CHANGES,
     [Effect.cacheGet cacheKey, Effect.carQuery, Effect.cacheSet cacheKey])

/-- Spec-side predicate (spec section 4.2, claim C2): a record is changed when
either `createdAt` or `updatedAt` falls at or after the cutoff. -/
def specChangedSince (cutoff : Nat) (c : Car) : Bool :=
  c.createdAt.any (fun t => cutoff ≤ t) || c.updatedAt.any (fun u => cutoff ≤ u)

/-- Responses of the link-create route. -/
inductive LinkResp where
  | invalidVin (vin : String)
  | alreadyExists
  | fromNotFound
  | ok
deriving DecidableEq, Repr

/-- Route `GET /images/v1/link/:from/:to`: validate both VINs (from first),
look up both records, throw when the target exists, 404 when the source is
missing, otherwise save a new `Car` that copies the source's `images` array
with `linked: true`. The route performs no cache access at all. -/
def linkCreate (st : SysState) (fromVin toVin : String) (now : Nat) :
    LinkResp × SysState :=
  if testVinRegex fromVin = false then (.invalidVin fromVin, st)
  else if testVinRegex toVin = false then (.invalidVin toVin, st)
  else
    let carData := findCar st.cars fromVin
    let carCheck := findCar st.cars toVin
    match carCheck with
    | some _ => (.alreadyExists, st)
    | none =>
      match carData with
      | none => (.fromNotFound, st)
      | some car =>
        (.ok, { st with
          cars := st.cars ++ [⟨toVin, car.images, true, some now, some now⟩] })

/-- Responses of the delete routes. -/
inductive DeleteResp where
  | invalidVin
  | notFound
  | ok
deriving DecidableEq, Repr

/-- Route `DELETE /images/v1/original/:vin` (basic-auth protected): validate
the VIN, look up the record, and `Car.deleteOne({ _id })` it. The route
touches neither the `Image` collection, nor the object store, nor the cache. -/
def deleteOriginal (st : SysState) (vin : String) : DeleteResp × SysState :=
  if testVinRegex vin = false then (.invalidVin, st)
  else
    match findCar st.cars vin with
    | none => (.notFound, st)
    | some _ => (.ok, { st with cars := st.cars.eraseP (fun c => c.vin = vin) })

/-! ## migrate.js: the migration engine -/

/-- One element of a supabase `cars.images` JSONB array, as written by
migrate.js (`{ positionIdentifier, path, originalId }`; `originalId` is absent
on rows written by the fallback service's metadata updater). -/
structure SupaImage where
  positionIdentifier : Nat
  path : String
  originalId : Option Nat
deriving DecidableEq, Repr

/-- One row of the supabase `cars` table. -/
structure SupaCar where
  vin : String
  images : List SupaImage
  linked : Bool
  created_at : Option Nat
  updated_at : Option Nat
deriving DecidableEq, Repr

/-- One value of migrate.js's process-local `idToPathMap`
(legacy image `_id` to `{ path, vin, positionIdentifier }`). -/
structure MapEntry where
  path : String
  vin : String
  positionIdentifier : Nat
deriving DecidableEq, Repr

/-- The state migrate.js operates on: the supabase `cars` table, the supabase
object storage (path to uploaded bytes, newest first), the shared Redis cache,
and the transient `idToPathMap`. -/
structure MigState where
  supaCars : List SupaCar
  storage : List (String × Bytes)
  cache : List CacheEntry
  idToPathMap : List (Nat × MapEntry)
deriving DecidableEq, Repr

/-- Supabase `select * eq vin single`: first row with that vin. -/
def findSupaCar (rows : List SupaCar) (vin : String) : Option SupaCar :=
  rows.find? (fun c => c.vin = vin)

/-- migrate.js `car.updatedAt || car.createdAt` (a Date object is truthy, so
`||` is presence on `Option`). -/
def mongoTimestampOf (car : Car) : Option Nat :=
  match car.updatedAt with
  | some u => some u
  | none => car.createdAt

/-- migrate.js `new Date(existingCar.updated_at || existingCar.created_at)`;
when both are null this is `new Date(null)`, the epoch (0). -/
def supabaseTimestampOf (c : SupaCar) : Nat :=
  (match c.updated_at with
   | some u => some u
   | none => c.created_at).getD 0

/-- The skip test of `migrateCar`: `mongoTimestamp <= supabaseTimestamp`
(false when the mongo record carries no timestamp at all, since comparing
`undefined` is never true in JavaScript). -/
def migrateSkipB (car : Car) (existingCar : SupaCar) : Bool :=
  match mongoTimestampOf car with
  | some m => decide (m ≤ supabaseTimestampOf existingCar)
  | none => false

/-- Whether `migrateCar` takes the skip branch on this state. -/
def migrateSkips (car : Car) (st : MigState) : Bool :=
  match findSupaCar st.supaCars car.vin with
  | some existingCar => migrateSkipB car existingCar
  | none => false

/-- The image loop of `migrateCar`: for each `images` entry of the mongo car,
fetch the `Image` document (skipping missing ones), optimize it (sharp
collaborator `optimize`), upload it to `"<vin>/<position>.jpg"`, and record
the `idToPathMap` entry. Returns the built `imageEntries`, the storage and
map after the loop, and the number of uploads performed. -/
def uploadCarImages (optimize : Bytes → Bytes) (imageDocs : List ImageDoc) (car : Car)
    (storage : List (String × Bytes)) (idMap : List (Nat × MapEntry)) :
    List SupaImage × List (String × Bytes) × List (Nat × MapEntry) × Nat :=
  car.images.foldl
    (fun acc imgEntry =>
      match findImageDoc imageDocs imgEntry.imageId with
      | none => acc
      | some imageDoc =>
        let optimizedImage := optimize imageDoc.image
        let imagePath := car.vin ++ "/" ++ toString imgEntry.positionIdentifier ++ ".jpg"
        (acc.1 ++ [⟨imgEntry.positionIdentifier, imagePath, some imgEntry.imageId⟩],
         (imagePath, optimizedImage) :: acc.2.1,
         (imgEntry.imageId, ⟨imagePath, car.vin, imgEntry.positionIdentifier⟩) :: acc.2.2.1,
         acc.2.2.2 + 1))
    ([], storage, idMap, 0)

/-- Replace the first image at the given position (JavaScript `findIndex`
followed by index assignment). -/
def replaceFirstByPos (newImage : SupaImage) : List SupaImage → List SupaImage
  | [] => []
  | i :: is =>
    if i.positionIdentifier = newImage.positionIdentifier then newImage :: is
    else i :: replaceFirstByPos newImage is

/-- The update-merge of `migrateCar`: start from the existing row's images and,
for each new entry, replace the one at the same position or append. -/
def mergeImages (images newImages : List SupaImage) : List SupaImage :=
  newImages.foldl
    (fun imgs newImage =>
      if imgs.any (fun i => i.positionIdentifier = newImage.positionIdentifier) then
        replaceFirstByPos newImage imgs
      else imgs ++ [newImage])
    images

/-- Character-list leading-match test (used for the Redis glob
`changedsince:*`; kept structural so that it evaluates in the kernel). -/
def charsLeadWith : List Char → List Char → Bool
  | [], _ => true
  | _ :: _, [] => false
  | c :: cs, d :: ds => c = d && charsLeadWith cs ds

/-- Whether a Redis key matches the glob `changedsince:*` of
`redis.keys("changedsince:*")`. -/
def matchesChangedsinceGlob (key : String) : Bool :=
  charsLeadWith "changedsince:".toList key.toList

/-- The cache invalidation performed at the end of a `migrateCar` upsert:
`redis.del("status:" + vin)` followed by deleting every key matching
`changedsince:*`. -/
def invalidateMigrationCache (cache : List CacheEntry) (vin : String) :
    List CacheEntry :=
  (cache.filter (fun e => e.key ≠ "status:" ++ vin)).filter
    (fun e => matchesChangedsinceGlob e.key = false)

/-- Result of `migrateCar`: the state afterwards, the number of storage
uploads issued, and the success flag. -/
structure MigResult where
  st : MigState
  uploads : Nat
  success : Bool
deriving DecidableEq, Repr

/-- migrate.js `migrateCar` (the happy path of the per-record migration; the
supabase/storage error branches model external-failure handling and carry no
state change beyond what is shown here):

1. look up the existing supabase row for the vin;
2. if present and `mongoTimestamp <= supabaseTimestamp`, skip, only filling
   `idToPathMap` from the existing row's images;
3. otherwise run the image upload loop, then update the existing row
   (merge images, set `linked` and `updated_at = now`, keep `created_at`) or
   insert a new row (`created_at` from the mongo record, `updated_at = now`);
4. delete the `status:<vin>` cache key and all `changedsince:*` keys. -/
def migrateCar (optimize : Bytes → Bytes) (now : Nat) (imageDocs : List ImageDoc)
    (car : Car) (st : MigState) : MigResult :=
  match findSupaCar st.supaCars car.vin with
  | some existingCar =>
    if migrateSkipB car existingCar then
      let newMap := car.images.foldl
        (fun mp imgEntry =>
          match existingCar.images.find?
              (fun img => img.positionIdentifier = imgEntry.positionIdentifier) with
          | some existingImage =>
              (imgEntry.imageId,
                ⟨existingImage.path, car.vin, imgEntry.positionIdentifier⟩) :: mp
          | none => mp)
        st.idToPathMap
      ⟨{ st with idToPathMap := newMap }, 0, true⟩
    else
      match uploadCarImages optimize imageDocs car st.storage st.idToPathMap with
      | (imageEntries, storage, idMap, uploads) =>
        let images := mergeImages existingCar.images imageEntries
        let supaCars := st.supaCars.map
          (fun c => if c.vin = car.vin then
              { c with images := images, linked := car.linked, updated_at := some now }
            else c)
        ⟨⟨supaCars, storage, invalidateMigrationCache st.cache car.vin, idMap⟩,
          uploads, true⟩
  | none =>
      match uploadCarImages optimize imageDocs car st.storage st.idToPathMap with
      | (imageEntries, storage, idMap, uploads) =>
        let supaCars :=
          st.supaCars ++ [⟨car.vin, imageEntries, car.linked, car.createdAt, some now⟩]
        ⟨⟨supaCars, storage, invalidateMigrationCache st.cache car.vin, idMap⟩,
          uploads, true⟩

/-- Sequential per-record processing of a list of mongo cars (the inner loop
of `runMigration`), accumulating the upload count. -/
def migrateCars (optimize : Bytes → Bytes) (now : Nat) (imageDocs : List ImageDoc) :
    List Car → MigState → MigState × Nat
  | [], st => (st, 0)
  | car :: rest, st =>
    let r := migrateCar optimize now imageDocs car st
    let restR := migrateCars optimize now imageDocs rest r.st
    (restR.1, r.uploads + restR.2)

/-- The origin pass of `runMigration`: process every mongo car with
`linked: { $ne: true }` through `migrateCar`, one after the other. -/
def migrateBatch (optimize : Bytes → Bytes) (now : Nat) (imageDocs : List ImageDoc)
    (cars : List Car) (st : MigState) : MigState × Nat :=
  migrateCars optimize now imageDocs (cars.filter (fun c => c.linked = false)) st

end ImageServer

namespace ImageServer

/-! ## Concrete states used by counterexamples and witnesses -/

/-- A well-formed 17-character VIN used by the concrete scenarios. -/
def exVin : String := "WAUZZZ4B33N111111"

/-- A second well-formed VIN (link source in scenarios). -/
def exVin2 : String := "WVWZZZ1JZ3W000001"

/-- A 17-character lowercase string: matched by the source's `\w{17}` regex
but not an uppercase alphanumeric VIN. -/
def lcVin : String := "abcdefgh_1234567a"

/-- An origin car with one image at position 1 (image document 42). -/
def carC5 : Car := ⟨exVin, [⟨1, 42⟩], false, some 5, some 5⟩

/-- State for the delete-original scenario: one origin car, its binary image
document, and cached image and status entries for its VIN. -/
def stC5 : SysState :=
  { cars := [carC5], imageDocs := [⟨42, [9, 9]⟩], ownStore := [],
    cache := [⟨"image:" ++ exVin ++ ":1:original:none", .img [9, 9], 1800⟩,
              ⟨"status:" ++ exVin, .status notFoundResponse, 300⟩] }

/-- State for the link-collision scenario: the target VIN already has a record. -/
def stC6 : SysState :=
  { cars := [carC5], imageDocs := [], ownStore := [], cache := [] }

/-- State for the cache-hit scenario: the mongo store holds bytes `[9]` for
position 1, while the cache already holds stale bytes `[7]` under the exact
image key. -/
def stC7 : SysState :=
  { cars := [⟨exVin, [⟨1, 5⟩], false, some 10, some 20⟩],
    imageDocs := [⟨5, [9]⟩], ownStore := [],
    cache := [⟨"image:" ++ exVin ++ ":1:original:none", .img [7], 1800⟩] }

/-- Empty system state. -/
def stC8 : SysState := { cars := [], imageDocs := [], ownStore := [], cache := [] }

/-- The mongo car being migrated in the migration scenarios. -/
def carC1 : Car := ⟨exVin, [⟨1, 5⟩], false, some 10, some 20⟩

/-- Migration state whose shared cache holds an image-payload entry for the
VIN, a `changes:60` query entry, and a `status:` entry. -/
def migC1 : MigState :=
  { supaCars := [], storage := [],
    cache := [⟨"image:" ++ exVin ++ ":1:original:none", .img [7], 1800⟩,
              ⟨"changes:60", .changes [], 60⟩,
              ⟨"status:" ++ exVin, .status notFoundResponse, 300⟩],
    idToPathMap := [] }

/-- The server state immediately after the migration of `carC1`: mongo and
the shared cache as the migration left them. -/
def stAfterMigC1 : SysState :=
  { cars := [carC1], imageDocs := [⟨5, [9]⟩], ownStore := [],
    cache := (migrateCar (fun b => b) 100 [⟨5, [9]⟩] carC1 migC1).st.cache }

/-- Two well-formed VINs for the link scenarios. -/
def linkVinA : String := "AAAAAAAAAAAAAAAA1"

/-- Link target VIN. -/
def linkVinB : String := "BBBBBBBBBBBBBBBB1"

/-- Origin car for the link scenarios. -/
def originC9 : Car := ⟨linkVinA, [⟨1, 5⟩], false, some 10, some 20⟩

/-- State holding the origin car and a cached negative status response for the
link target VIN. -/
def stC9 : SysState :=
  { cars := [originC9], imageDocs := [⟨5, [9]⟩], ownStore := [],
    cache := [⟨"status:" ++ linkVinB, .status notFoundResponse, 300⟩] }

/-- Two cars for the changed-since scenario: one inside the window, one not. -/
def stC2 : SysState :=
  { cars := [⟨linkVinA, [], false, some 5000, some 6000⟩,
             ⟨linkVinB, [], false, some 1, some 2⟩],
    imageDocs := [], ownStore := [], cache := [] }

/-- An empty migration state. -/
def migEmpty : MigState := { supaCars := [], storage := [], cache := [], idToPathMap := [] }

/-- Migration state whose canonical row for `exVin` is newer than `carC1`. -/
def migSkipSt : MigState :=
  { supaCars := [⟨exVin, [], false, some 30, some 40⟩], storage := [], cache := [],
    idToPathMap := [] }

end ImageServer

namespace ImageServer

/-! ## Claim theorems -/

/-- C5 (code bug): the authenticated delete-original operation on a
`linked=false` record removes only the `Car` metadata record. Evaluated at a
concrete state holding the record, its binary `Image` document, and cached
image/status entries for the VIN: the response is success and the record is
gone, but the binary data and every cache entry survive, contradicting the
spec's invariant that deletion also removes the underlying binary data and
all derived cache entries. -/
theorem deleteOriginal_keeps_binaries_and_cache :
    (deleteOriginal stC5 exVin).1 = .ok ∧
    (deleteOriginal stC5 exVin).2.cars = [] ∧
    (deleteOriginal stC5 exVin).2.imageDocs = stC5.imageDocs ∧
    (deleteOriginal stC5 exVin).2.cache = stC5.cache ∧
    (deleteOriginal stC5 exVin).2.ownStore = stC5.ownStore := by decide

/-- C6: a link-create whose target VIN already has a record (linked or not)
fails with the already-exists error and returns the state unchanged: no
record is created or modified. -/
theorem linkCreate_target_exists_alreadyExists
    (st : SysState) (fromVin toVin : String) (now : Nat) (c : Car)
    (hv1 : testVinRegex fromVin = true) (hv2 : testVinRegex toVin = true)
    (hto : findCar st.cars toVin = some c) :
    linkCreate st fromVin toVin now = (.alreadyExists, st) := by
  simp [linkCreate, hv1, hv2, hto]

/-- C6 witness: the collision theorem at a concrete state whose target VIN is
already present. -/
theorem linkCreate_target_exists_witness :
    findCar stC6.cars exVin = some carC5 ∧
    linkCreate stC6 exVin2 exVin 50 = (.alreadyExists, stC6) :=
  ⟨by decide, linkCreate_target_exists_alreadyExists stC6 exVin2 exVin 50 carC5
    (by decide) (by decide) (by decide)⟩

/-- C7 counterexample: in the raw route the `Car.findOne` query precedes the
cache check, so even when the cache already holds the exact
(vin, position, original) entry — and the cached bytes are what is returned —
the canonical record store is queried during the resolution. This refutes the
claim that on a cache hit the store is never queried. -/
theorem rawEndpoint_queries_store_despite_cache_hit :
    getFromCache stC7.cache (getCacheKey (.image exVin 1 none none)) = some (.img [7]) ∧
    (rawEndpoint (fun b _ => b) stC7 exVin 1 none).resp = .ok [7] ∧
    Effect.carQuery ∈ (rawEndpoint (fun b _ => b) stC7 exVin 1 none).effects := by decide

/-- C7 (amended): on a cache hit for the exact (vin, position, original)
tuple with no shrink parameter, the cached bytes are returned, the cache is
unchanged, and the full effect trace is one `Car.findOne` query (issued
before the cache check) followed by the cache read — in particular neither
the image-document store nor the own store is accessed. -/
theorem rawEndpoint_cache_hit_skips_image_stores
    (resize : Bytes → Nat → Bytes) (st : SysState) (vin : String) (pos : Nat) (b : Bytes)
    (hv : testVinRegex vin = true)
    (hc : getFromCache st.cache (getCacheKey (.image vin pos none none)) = some (.img b)) :
    rawEndpoint resize st vin pos none =
      ⟨.ok b, st.cache,
        [Effect.carQuery, Effect.cacheGet (getCacheKey (.image vin pos none none))]⟩ := by
  unfold rawEndpoint handleCarData postProcessImage
  simp [hv, hc]

/-- C7 witness: the amended cache-hit theorem at the concrete stale-cache
state. -/
theorem rawEndpoint_cache_hit_witness :
    getFromCache stC7.cache (getCacheKey (.image exVin 1 none none)) = some (.img [7]) ∧
    rawEndpoint (fun b _ => b) stC7 exVin 1 none =
      ⟨.ok [7], stC7.cache,
        [Effect.carQuery, Effect.cacheGet (getCacheKey (.image exVin 1 none none))]⟩ :=
  ⟨by decide,
   rawEndpoint_cache_hit_skips_image_stores (fun b _ => b) stC7 exVin 1 [7]
     (by decide) (by decide)⟩

/-- C8 counterexample: the source validates VINs with the regex `\w{17}`,
which accepts lowercase letters and underscores. The 17-character string
"abcdefgh_1234567a" is not an uppercase alphanumeric VIN, yet the status
route does not reject it and goes on to query the record store, refuting the
claim that any non-(17-character uppercase alphanumeric) VIN is rejected
before any store is touched. -/
theorem vin_regex_admits_non_uppercase :
    testVinRegex lcVin = true ∧ isUpperAlnumVin lcVin = false ∧
    (statusEndpoint stC8 lcVin).1 ≠ .invalidVin ∧
    Effect.carQuery ∈ (statusEndpoint stC8 lcVin).2.2 := by decide

/-- C8 (amended): whenever the supplied VIN fails the source's actual check —
17 word characters (`[A-Za-z0-9_]{17}`) — every VIN-taking route rejects the
request with the invalid-VIN error, leaves the cache unchanged, and performs
no store or cache access at all. -/
theorem invalid_vin_rejected_before_stores
    (resize : Bytes → Nat → Bytes) (brandFn : String → Bytes → Bytes)
    (st : SysState) (vin toVin brandId : String) (pos : Nat) (shrink : Option Nat) (now : Nat)
    (h : testVinRegex vin = false) :
    statusEndpoint st vin = (.invalidVin, st.cache, []) ∧
    rawEndpoint resize st vin pos shrink = ⟨.invalidVin, st.cache, []⟩ ∧
    brandV1Endpoint resize brandFn st vin pos shrink = ⟨.invalidVin, st.cache, []⟩ ∧
    (BRANDS_keys.contains brandId = true →
      brandV2Endpoint resize brandFn st brandId vin pos shrink = ⟨.invalidVin, st.cache, []⟩) ∧
    linkCreate st vin toVin now = (.invalidVin vin, st) ∧
    (testVinRegex toVin = true → linkCreate st toVin vin now = (.invalidVin vin, st)) ∧
    deleteOriginal st vin = (.invalidVin, st) := by
  refine ⟨?_, ?_, ?_, ?_, ?_, ?_, ?_⟩
  · simp [statusEndpoint, h]
  · simp [rawEndpoint, h]
  · simp [brandV1Endpoint, h]
  · intro hb
    unfold brandV2Endpoint
    rw [hb, if_neg (by decide), if_pos h]
  · simp [linkCreate, h]
  · intro ht; simp [linkCreate, h, ht]
  · simp [deleteOriginal, h]

/-- C8 witness: the amended rejection theorem at the malformed VIN "AB". -/
theorem invalid_vin_rejected_witness :
    testVinRegex "AB" = false ∧
    statusEndpoint stC8 "AB" = (.invalidVin, stC8.cache, []) :=
  ⟨by decide,
   (invalid_vin_rejected_before_stores (fun b _ => b) (fun _ b => b) stC8 "AB" exVin "BRAND"
      1 none 0 (by decide)).1⟩

/-- C10: on both branded endpoints the brand overlay is composited only when
the position equals 1; for any other position the entire result (bytes, cache
and effect trace) is identical to the unbranded raw endpoint for the same
vin, position and shrink parameters. -/
theorem brand_composited_only_at_position_one
    (resize : Bytes → Nat → Bytes) (brandFn : String → Bytes → Bytes)
    (st : SysState) (brandId vin : String) (pos : Nat) (shrink : Option Nat)
    (hpos : pos ≠ 1) :
    brandV1Endpoint resize brandFn st vin pos shrink = rawEndpoint resize st vin pos shrink ∧
    (BRANDS_keys.contains brandId = true →
      brandV2Endpoint resize brandFn st brandId vin pos shrink =
        rawEndpoint resize st vin pos shrink) := by
  constructor
  · unfold brandV1Endpoint rawEndpoint
    by_cases hv : testVinRegex vin = false
    · rw [if_pos hv, if_pos hv]
    · rw [if_neg hv, if_neg hv]
      rcases handleCarData st (findCar st.cars vin) vin pos with ⟨_ | b, c1, e1⟩
      · rfl
      · rcases postProcessImage resize c1 vin pos shrink b with ⟨b2, c2, e2⟩
        simp [hpos]
  · intro hb
    unfold brandV2Endpoint rawEndpoint
    rw [hb, if_neg (by decide)]
    by_cases hv : testVinRegex vin = false
    · rw [if_pos hv, if_pos hv]
    · rw [if_neg hv, if_neg hv]
      rcases handleCarData st (findCar st.cars vin) vin pos with ⟨_ | b, c1, e1⟩
      · rfl
      · rcases postProcessImage resize c1 vin pos shrink b with ⟨b2, c2, e2⟩
        simp [hpos]

/-- C10 witness: both branded endpoints agree with the raw endpoint at
position 2 on a concrete state, with a brand function that would visibly
alter the bytes if it were applied. -/
theorem brand_composited_witness :
    brandV1Endpoint (fun b _ => b) (fun _ b => 0 :: b) stC7 exVin 2 none =
      rawEndpoint (fun b _ => b) stC7 exVin 2 none ∧
    brandV2Endpoint (fun b _ => b) (fun _ b => 0 :: b) stC7 "BRANDDSG" exVin 2 none =
      rawEndpoint (fun b _ => b) stC7 exVin 2 none := by
  have h := brand_composited_only_at_position_one (fun b _ => b) (fun _ b => 0 :: b)
    stC7 "BRANDDSG" exVin 2 none (by decide)
  exact ⟨h.1, h.2 (by decide)⟩

/-- C1 counterexample: `migrateCar`'s post-upsert invalidation deletes only
`status:<vin>` and keys matching `changedsince:*`. At a concrete state the
upsert runs (one upload), yet the image-payload entry for the VIN and the
server's `changes:60` query entry both survive, and an immediately
subsequent raw-image resolution returns the stale cached bytes `[7]` even
though the stored binary is `[9]`. Only the status entry is actually
invalidated. -/
theorem migrateCar_leaves_stale_cache_entries :
    (migrateCar (fun b => b) 100 [⟨5, [9]⟩] carC1 migC1).uploads = 1 ∧
    getFromCache (migrateCar (fun b => b) 100 [⟨5, [9]⟩] carC1 migC1).st.cache
      (getCacheKey (.image exVin 1 none none)) = some (.img [7]) ∧
    getFromCache (migrateCar (fun b => b) 100 [⟨5, [9]⟩] carC1 migC1).st.cache
      (getCacheKey (.changes "60")) = some (.changes []) ∧
    getFromCache (migrateCar (fun b => b) 100 [⟨5, [9]⟩] carC1 migC1).st.cache
      (getCacheKey (.status exVin)) = none ∧
    (rawEndpoint (fun b _ => b) stAfterMigC1 exVin 1 none).resp = .ok [7] ∧
    findImageDoc stAfterMigC1.imageDocs 5 = some ⟨5, [9]⟩ := by decide

/-- C1 (amended): on every non-skipping `migrateCar` run the resulting cache
is exactly the input cache minus the `status:<vin>` key and the keys matching
`changedsince:*`; every other entry — in particular the image-payload entries
for that VIN and the server's `changes:<s>` entries — is retained, so a
subsequent image resolution within the TTL can return stale pre-mutation
bytes (a subsequent status resolution cannot, its key being cleared). -/
theorem migrateCar_invalidates_only_status_and_changedsince
    (optimize : Bytes → Bytes) (now : Nat) (imageDocs : List ImageDoc)
    (car : Car) (st : MigState)
    (hns : migrateSkips car st = false) :
    (migrateCar optimize now imageDocs car st).st.cache =
      invalidateMigrationCache st.cache car.vin ∧
    ∀ e ∈ st.cache, e.key ≠ "status:" ++ car.vin →
      matchesChangedsinceGlob e.key = false →
      e ∈ (migrateCar optimize now imageDocs car st).st.cache := by
  have hcache : (migrateCar optimize now imageDocs car st).st.cache =
      invalidateMigrationCache st.cache car.vin := by
    unfold migrateSkips at hns
    cases hfind : findSupaCar st.supaCars car.vin with
    | none =>
      simp only [migrateCar, hfind]
    | some ec =>
      rw [hfind] at hns
      have hns2 : migrateSkipB car ec = false := hns
      simp only [migrateCar, hfind, hns2, Bool.false_eq_true, if_false]
  refine ⟨hcache, ?_⟩
  intro e he h1 h2
  rw [hcache]
  unfold invalidateMigrationCache
  exact List.mem_filter.2 ⟨List.mem_filter.2 ⟨he, by simp [h1]⟩, by simp [h2]⟩

/-- C1 witness: the partial-invalidation theorem at the concrete migration
state of the counterexample. -/
theorem migrateCar_invalidation_witness :
    migrateSkips carC1 migC1 = false ∧
    (migrateCar (fun b => b) 100 [⟨5, [9]⟩] carC1 migC1).st.cache =
      invalidateMigrationCache migC1.cache carC1.vin :=
  ⟨by decide,
   (migrateCar_invalidates_only_status_and_changedsince (fun b => b) 100 [⟨5, [9]⟩]
      carC1 migC1 (by decide)).1⟩

end ImageServer

namespace ImageServer

/-- C9: a successful link-create performs no cache invalidation — the
resulting cache is the input cache — and when a negative status response for
the target VIN is cached, a status read after linking still answers from that
stale entry (found=false) with a single cache-read effect, even though the
target VIN now has a record. -/
theorem linkCreate_no_cache_invalidation
    (st : SysState) (fromVin toVin : String) (now : Nat) (origin : Car)
    (hv1 : testVinRegex fromVin = true) (hv2 : testVinRegex toVin = true)
    (hfrom : findCar st.cars fromVin = some origin)
    (hto : findCar st.cars toVin = none)
    (hcached : getFromCache st.cache (getCacheKey (.status toVin)) =
      some (.status notFoundResponse)) :
    (linkCreate st fromVin toVin now).2.cache = st.cache ∧
    (∃ c, findCar (linkCreate st fromVin toVin now).2.cars toVin = some c) ∧
    (statusEndpoint (linkCreate st fromVin toVin now).2 toVin).1 = .ok notFoundResponse ∧
    (statusEndpoint (linkCreate st fromVin toVin now).2 toVin).2.2 =
      [Effect.cacheGet (getCacheKey (.status toVin))] := by
  have hlink : (linkCreate st fromVin toVin now).2 =
      { st with cars := st.cars ++ [⟨toVin, origin.images, true, some now, some now⟩] } := by
    simp [linkCreate, hv1, hv2, hfrom, hto]
  rw [hlink]
  have hfindL : findCar (st.cars ++ [⟨toVin, origin.images, true, some now, some now⟩]) toVin
      = some ⟨toVin, origin.images, true, some now, some now⟩ := by
    unfold findCar at hto ⊢
    rw [List.find?_append, hto, Option.none_or]
    exact List.find?_cons_of_pos _ (by simp)
  refine ⟨rfl, ⟨_, hfindL⟩, ?_, ?_⟩
  · simp [statusEndpoint, hv2, hcached]
  · simp [statusEndpoint, hv2, hcached]

/-- C9 witness: the stale-status theorem at a concrete state holding a
cached negative status response for the link target. -/
theorem linkCreate_no_cache_invalidation_witness :
    getFromCache stC9.cache (getCacheKey (.status linkVinB)) =
      some (.status notFoundResponse) ∧
    (linkCreate stC9 linkVinA linkVinB 50).2.cache = stC9.cache ∧
    (statusEndpoint (linkCreate stC9 linkVinA linkVinB 50).2 linkVinB).1 =
      .ok notFoundResponse :=
  ⟨by decide,
   (linkCreate_no_cache_invalidation stC9 linkVinA linkVinB 50 originC9
      (by decide) (by decide) (by decide) (by decide) (by decide)).1,
   (linkCreate_no_cache_invalidation stC9 linkVinA linkVinB 50 originC9
      (by decide) (by decide) (by decide) (by decide) (by decide)).2.2.1⟩

/-- C2: on a cache miss, for every window of `sec` seconds the changed-since
query returns exactly the VINs of the records the spec considers changed —
either timestamp at or after `now - sec*1000` — and the returned list has no
duplicate VINs. The hypotheses are the store invariants: every record carries
both timestamps with `createdAt ≤ updatedAt` (mongoose `timestamps: true`
guarantees this), and VINs are unique. Under them the source's
updatedAt-only mongo filter coincides with the spec's two-timestamp
predicate. -/
theorem changedsince_matches_both_timestamps
    (st : SysState) (now sec : Nat)
    (hmiss : getFromCache st.cache (getCacheKey (.changes (toString sec))) = none)
    (hwf : ∀ c ∈ st.cars, c.createdAt.isSome = true ∧ c.updatedAt.isSome = true ∧
      c.createdAt.getD 0 ≤ c.updatedAt.getD 0)
    (hnd : (st.cars.map (fun c => c.vin)).Nodup) :
    (changedsinceEndpoint st now sec).1 =
      (st.cars.filter (specChangedSince (now - sec * 1000))).map (fun c => c.vin) ∧
    (changedsinceEndpoint st now sec).1.Nodup := by
  have hfeq : st.cars.filter (fun c => c.updatedAt.any (fun u => now - sec * 1000 ≤ u)) =
      st.cars.filter (specChangedSince (now - sec * 1000)) := by
    apply List.filter_congr
    intro c hc
    rcases hwf c hc with ⟨h1, h2, h3⟩
    obtain ⟨cc, hcc⟩ := Option.isSome_iff_exists.mp h1
    obtain ⟨cu, hcu⟩ := Option.isSome_iff_exists.mp h2
    rw [hcc, hcu] at h3
    simp only [Option.getD_some] at h3
    unfold specChangedSince
    rw [hcc, hcu]
    simp only [Option.any_some]
    by_cases hle : now - sec * 1000 ≤ cc
    · simp [hle, le_trans hle h3]
    · simp [hle]
  have heval : (changedsinceEndpoint st now sec).1 =
      (st.cars.filter (specChangedSince (now - sec * 1000))).map (fun c => c.vin) := by
    simp only [changedsinceEndpoint, hmiss]
    rw [hfeq]
  refine ⟨heval, ?_⟩
  rw [heval]
  exact List.Nodup.sublist (List.Sublist.map _ (List.filter_sublist _)) hnd

/-- C2 witness: the changed-since theorem at a concrete store with one record
inside the window and one outside. -/
theorem changedsince_witness :
    (changedsinceEndpoint stC2 7000 2).1 =
      (stC2.cars.filter (specChangedSince (7000 - 2 * 1000))).map (fun c => c.vin) ∧
    (changedsinceEndpoint stC2 7000 2).1.Nodup :=
  changedsince_matches_both_timestamps stC2 7000 2 (by decide) (by decide) (by decide)

theorem rawEndpoint_resp_of_valid (resize : Bytes → Nat → Bytes) (st : SysState)
    (vin : String) (pos : Nat) (hv : testVinRegex vin = true) :
    (rawEndpoint resize st vin pos none).resp =
      match (handleCarData st (findCar st.cars vin) vin pos).1 with
      | none => ImgResp.notFound
      | some b => ImgResp.ok b := by
  unfold rawEndpoint
  rw [if_neg (by simp [hv])]
  rcases handleCarData st (findCar st.cars vin) vin pos with ⟨_ | b, c1, e1⟩
  · rfl
  · rfl

theorem handleCarData_fst_eq_of_same_images
    (st : SysState) (c1 c2 : Car) (v1 v2 : String) (pos : Nat)
    (himg : c1.images = c2.images)
    (h1 : getFromCache st.cache (getCacheKey (.image v1 pos none none)) = none)
    (h2 : getFromCache st.cache (getCacheKey (.image v2 pos none none)) = none) :
    (handleCarData st (some c1) v1 pos).1 = (handleCarData st (some c2) v2 pos).1 := by
  simp only [handleCarData, h1, h2, himg]
  split
  · rfl
  · split <;> rfl

/-- C4: after `link(from=O, to=L)` the created record for L is `linked=true`
and stores exactly O's image references (never a copy of binary data — the
record type carries no bytes, only `imageId` references), and on a clean
cache the raw-image resolution for L returns the same response as for O at
every position. -/
theorem linked_image_identity
    (resize : Bytes → Nat → Bytes) (st : SysState) (fromVin toVin : String)
    (now pos : Nat) (origin : Car)
    (hv1 : testVinRegex fromVin = true) (hv2 : testVinRegex toVin = true)
    (hfrom : findCar st.cars fromVin = some origin)
    (hto : findCar st.cars toVin = none)
    (hc1 : getFromCache st.cache (getCacheKey (.image toVin pos none none)) = none)
    (hc2 : getFromCache st.cache (getCacheKey (.image fromVin pos none none)) = none) :
    (∃ linkedCar, findCar (linkCreate st fromVin toVin now).2.cars toVin = some linkedCar ∧
      linkedCar.images = origin.images ∧ linkedCar.linked = true) ∧
    (rawEndpoint resize (linkCreate st fromVin toVin now).2 toVin pos none).resp =
      (rawEndpoint resize (linkCreate st fromVin toVin now).2 fromVin pos none).resp := by
  have hlink : (linkCreate st fromVin toVin now).2 =
      { st with cars := st.cars ++ [⟨toVin, origin.images, true, some now, some now⟩] } := by
    simp [linkCreate, hv1, hv2, hfrom, hto]
  rw [hlink]
  have hfindL : findCar
      ({ st with cars := st.cars ++ [⟨toVin, origin.images, true, some now, some now⟩] }
        : SysState).cars toVin
      = some ⟨toVin, origin.images, true, some now, some now⟩ := by
    show (st.cars ++ [_]).find? _ = _
    rw [List.find?_append]
    unfold findCar at hto
    rw [hto, Option.none_or]
    exact List.find?_cons_of_pos _ (by simp)
  have hfindO : findCar
      ({ st with cars := st.cars ++ [⟨toVin, origin.images, true, some now, some now⟩] }
        : SysState).cars fromVin = some origin := by
    show (st.cars ++ [_]).find? _ = _
    rw [List.find?_append]
    unfold findCar at hfrom
    rw [hfrom]
    rfl
  refine ⟨⟨⟨toVin, origin.images, true, some now, some now⟩, hfindL, rfl, rfl⟩, ?_⟩
  rw [rawEndpoint_resp_of_valid _ _ _ _ hv2, rawEndpoint_resp_of_valid _ _ _ _ hv1,
      hfindL, hfindO,
      handleCarData_fst_eq_of_same_images
        { st with cars := st.cars ++ [⟨toVin, origin.images, true, some now, some now⟩] }
        ⟨toVin, origin.images, true, some now, some now⟩ origin toVin fromVin pos rfl hc1 hc2]

/-- C4 witness: the linked-image identity theorem at a concrete origin with
one image and a clean image cache. -/
theorem linked_image_identity_witness :
    (∃ linkedCar,
      findCar (linkCreate stC9 linkVinA linkVinB 50).2.cars linkVinB = some linkedCar ∧
      linkedCar.images = originC9.images ∧ linkedCar.linked = true) ∧
    (rawEndpoint (fun b _ => b) (linkCreate stC9 linkVinA linkVinB 50).2 linkVinB 1 none).resp =
      (rawEndpoint (fun b _ => b) (linkCreate stC9 linkVinA linkVinB 50).2 linkVinA 1 none).resp :=
  linked_image_identity (fun b _ => b) stC9 linkVinA linkVinB 50 1 originC9
    (by decide) (by decide) (by decide) (by decide) (by decide) (by decide)

end ImageServer

namespace ImageServer

theorem migrateSkips_eq_true_iff (car : Car) (st : MigState) :
    migrateSkips car st = true ↔
      ∃ ec, findSupaCar st.supaCars car.vin = some ec ∧ migrateSkipB car ec = true := by
  unfold migrateSkips
  cases h : findSupaCar st.supaCars car.vin with
  | none => simp
  | some ec => simp

theorem migrateCar_skip_eval
    (optimize : Bytes → Bytes) (now : Nat) (imageDocs : List ImageDoc)
    (car : Car) (st : MigState) (ec : SupaCar)
    (hfind : findSupaCar st.supaCars car.vin = some ec)
    (hskip : migrateSkipB car ec = true) :
    (migrateCar optimize now imageDocs car st).st.supaCars = st.supaCars ∧
    (migrateCar optimize now imageDocs car st).st.storage = st.storage ∧
    (migrateCar optimize now imageDocs car st).st.cache = st.cache ∧
    (migrateCar optimize now imageDocs car st).uploads = 0 := by
  simp [migrateCar, hfind, hskip]

theorem findSupaCar_map_update (rows : List SupaCar) (v : String)
    (f : SupaCar → SupaCar) (hf : ∀ c, (f c).vin = c.vin) :
    findSupaCar (rows.map f) v = (findSupaCar rows v).map f := by
  induction rows with
  | nil => rfl
  | cons x xs ih =>
    unfold findSupaCar at ih ⊢
    by_cases hx : x.vin = v
    · rw [List.map_cons, List.find?_cons_of_pos _ (by simp [hf, hx]),
        List.find?_cons_of_pos _ (by simp [hx])]
      rfl
    · rw [List.map_cons, List.find?_cons_of_neg _ (by simp [hf, hx]),
        List.find?_cons_of_neg _ (by simp [hx])]
      exact ih

theorem migrateCar_preserves_timestamp_bound
    (optimize : Bytes → Bytes) (now : Nat) (imageDocs : List ImageDoc)
    (e : Car) (st : MigState) (v : String) (ec : SupaCar) (b : Nat)
    (hfind : findSupaCar st.supaCars v = some ec)
    (hb : b ≤ supabaseTimestampOf ec) (hbt : b ≤ now) :
    ∃ ec2, findSupaCar (migrateCar optimize now imageDocs e st).st.supaCars v = some ec2 ∧
      b ≤ supabaseTimestampOf ec2 := by
  cases hfindE : findSupaCar st.supaCars e.vin with
  | some ecE =>
    by_cases hskip : migrateSkipB e ecE = true
    · refine ⟨ec, ?_, hb⟩
      rw [(migrateCar_skip_eval optimize now imageDocs e st ecE hfindE hskip).1]
      exact hfind
    · have hsf : migrateSkipB e ecE = false := by
        revert hskip; cases migrateSkipB e ecE <;> simp
      rcases hup : uploadCarImages optimize imageDocs e st.storage st.idToPathMap with
        ⟨ie, stor, mp, up⟩
      have hres : (migrateCar optimize now imageDocs e st).st.supaCars =
          st.supaCars.map (fun c => if c.vin = e.vin then
            { c with
                images := mergeImages ecE.images ie,
                linked := e.linked,
                updated_at := some now }
            else c) := by
        simp [migrateCar, hfindE, hsf, hup]
      rw [hres, findSupaCar_map_update st.supaCars v _
        (fun c => by by_cases h : c.vin = e.vin <;> simp [h]), hfind]
      refine ⟨_, rfl, ?_⟩
      by_cases hv : ec.vin = e.vin
      · simp only [hv, if_pos]
        unfold supabaseTimestampOf
        simpa using hbt
      · simp only [hv, if_neg, ite_false]
        exact hb
  | none =>
    rcases hup : uploadCarImages optimize imageDocs e st.storage st.idToPathMap with
      ⟨ie, stor, mp, up⟩
    have hres : (migrateCar optimize now imageDocs e st).st.supaCars =
        st.supaCars ++ [⟨e.vin, ie, e.linked, e.createdAt, some now⟩] := by
      simp [migrateCar, hfindE, hup]
    refine ⟨ec, ?_, hb⟩
    rw [hres]
    unfold findSupaCar at hfind ⊢
    rw [List.find?_append, hfind]
    rfl

theorem migrateCar_establishes_timestamp_bound
    (optimize : Bytes → Bytes) (now : Nat) (imageDocs : List ImageDoc)
    (car : Car) (st : MigState) (m : Nat)
    (hm : mongoTimestampOf car = some m) (hmt : m ≤ now) :
    ∃ ec2, findSupaCar (migrateCar optimize now imageDocs car st).st.supaCars car.vin
        = some ec2 ∧
      m ≤ supabaseTimestampOf ec2 := by
  cases hfindE : findSupaCar st.supaCars car.vin with
  | some ec =>
    by_cases hskip : migrateSkipB car ec = true
    · refine ⟨ec, ?_, ?_⟩
      · rw [(migrateCar_skip_eval optimize now imageDocs car st ec hfindE hskip).1]
        exact hfindE
      · unfold migrateSkipB at hskip
        rw [hm] at hskip
        exact of_decide_eq_true hskip
    · have hsf : migrateSkipB car ec = false := by
        revert hskip; cases migrateSkipB car ec <;> simp
      rcases hup : uploadCarImages optimize imageDocs car st.storage st.idToPathMap with
        ⟨ie, stor, mp, up⟩
      have hres : (migrateCar optimize now imageDocs car st).st.supaCars =
          st.supaCars.map (fun c => if c.vin = car.vin then
            { c with
                images := mergeImages ec.images ie,
                linked := car.linked,
                updated_at := some now }
            else c) := by
        simp [migrateCar, hfindE, hsf, hup]
      have hvin : ec.vin = car.vin := by
        have := List.find?_some hfindE
        exact of_decide_eq_true this
      rw [hres, findSupaCar_map_update st.supaCars car.vin _
        (fun c => by by_cases h : c.vin = car.vin <;> simp [h]), hfindE]
      refine ⟨_, rfl, ?_⟩
      simp only [hvin, if_pos]
      unfold supabaseTimestampOf
      simpa using hmt
  | none =>
    rcases hup : uploadCarImages optimize imageDocs car st.storage st.idToPathMap with
      ⟨ie, stor, mp, up⟩
    have hres : (migrateCar optimize now imageDocs car st).st.supaCars =
        st.supaCars ++ [⟨car.vin, ie, car.linked, car.createdAt, some now⟩] := by
      simp [migrateCar, hfindE, hup]
    refine ⟨⟨car.vin, ie, car.linked, car.createdAt, some now⟩, ?_, ?_⟩
    · rw [hres]
      unfold findSupaCar at hfindE ⊢
      rw [List.find?_append, hfindE, Option.none_or]
      exact List.find?_cons_of_pos _ (by simp)
    · unfold supabaseTimestampOf
      simpa using hmt

theorem migrateCars_preserve_timestamp_bound
    (optimize : Bytes → Bytes) (now : Nat) (imageDocs : List ImageDoc)
    (l : List Car) (st : MigState) (v : String) (ec : SupaCar) (b : Nat)
    (hfind : findSupaCar st.supaCars v = some ec)
    (hb : b ≤ supabaseTimestampOf ec) (hbt : b ≤ now) :
    ∃ ec2, findSupaCar (migrateCars optimize now imageDocs l st).1.supaCars v = some ec2 ∧
      b ≤ supabaseTimestampOf ec2 := by
  induction l generalizing st ec with
  | nil =>
    simp only [migrateCars]
    exact ⟨ec, hfind, hb⟩
  | cons e rest ih =>
    simp only [migrateCars]
    obtain ⟨ec2, hf2, hb2⟩ := migrateCar_preserves_timestamp_bound optimize now imageDocs
      e st v ec b hfind hb hbt
    exact ih (migrateCar optimize now imageDocs e st).st ec2 hf2 hb2

theorem migrateCars_after_run_bound
    (optimize : Bytes → Bytes) (now : Nat) (imageDocs : List ImageDoc)
    (l : List Car) (st : MigState)
    (hts : ∀ c ∈ l, ∃ m, mongoTimestampOf c = some m ∧ m ≤ now) :
    ∀ c ∈ l, ∃ ec,
      findSupaCar (migrateCars optimize now imageDocs l st).1.supaCars c.vin = some ec ∧
      ∃ m, mongoTimestampOf c = some m ∧ m ≤ supabaseTimestampOf ec := by
  induction l generalizing st with
  | nil => intro c hc; exact absurd hc (List.not_mem_nil c)
  | cons e rest ih =>
    intro c hc
    simp only [migrateCars]
    rcases List.mem_cons.mp hc with rfl | hc2
    · obtain ⟨m, hm, hmt⟩ := hts c (List.mem_cons_self _ _)
      obtain ⟨ec1, hf1, hb1⟩ := migrateCar_establishes_timestamp_bound optimize now
        imageDocs c st m hm hmt
      obtain ⟨ec2, hf2, hb2⟩ := migrateCars_preserve_timestamp_bound optimize now
        imageDocs rest (migrateCar optimize now imageDocs c st).st c.vin ec1 m hf1 hb1 hmt
      exact ⟨ec2, hf2, m, hm, hb2⟩
    · exact ih (migrateCar optimize now imageDocs e st).st
        (fun d hd => hts d (List.mem_cons_of_mem _ hd)) c hc2

theorem migrateCars_all_skip
    (optimize : Bytes → Bytes) (now : Nat) (imageDocs : List ImageDoc)
    (l : List Car) (st : MigState)
    (hskip : ∀ c ∈ l, migrateSkips c st = true) :
    (migrateCars optimize now imageDocs l st).1.supaCars = st.supaCars ∧
    (migrateCars optimize now imageDocs l st).1.storage = st.storage ∧
    (migrateCars optimize now imageDocs l st).1.cache = st.cache ∧
    (migrateCars optimize now imageDocs l st).2 = 0 := by
  induction l generalizing st with
  | nil => exact ⟨rfl, rfl, rfl, rfl⟩
  | cons e rest ih =>
    obtain ⟨ec, hfind, hsk⟩ := (migrateSkips_eq_true_iff e st).mp
      (hskip e (List.mem_cons_self _ _))
    have hse := migrateCar_skip_eval optimize now imageDocs e st ec hfind hsk
    have hskip2 : ∀ c ∈ rest, migrateSkips c (migrateCar optimize now imageDocs e st).st
        = true := by
      intro c hc
      have hc2 := hskip c (List.mem_cons_of_mem _ hc)
      unfold migrateSkips at hc2 ⊢
      rw [hse.1]
      exact hc2
    obtain ⟨h1, h2, h3, h4⟩ := ih (migrateCar optimize now imageDocs e st).st hskip2
    simp only [migrateCars]
    refine ⟨?_, ?_, ?_, ?_⟩
    · rw [h1, hse.1]
    · rw [h2, hse.2.1]
    · rw [h3, hse.2.2.1]
    · rw [h4, hse.2.2.2]

/-- C3: migration idempotency. First conjunct (per-record skip): whenever the
canonical row for a legacy record's VIN exists with
`max(created_at, updated_at)` at least the legacy `max(createdAt, updatedAt)`
(timestamps well-formed on both sides), `migrateCar` performs zero uploads
and leaves the canonical rows and object storage unchanged. Second conjunct
(batch): when every origin record carries an `updatedAt` no later than the
first run's clock `t1`, running the origin batch a second time (at any clock
`t2`) leaves the canonical rows and storage exactly as the first run left
them and issues zero additional uploads. -/
theorem migration_idempotent
    (optimize : Bytes → Bytes) (t1 t2 : Nat) (imageDocs : List ImageDoc)
    (cars : List Car) (st0 : MigState)
    (car : Car) (st : MigState) (ec : SupaCar) (cc cu sc su : Nat)
    (hcc : car.createdAt = some cc) (hcu : car.updatedAt = some cu) (hccu : cc ≤ cu)
    (hfind : findSupaCar st.supaCars car.vin = some ec)
    (hsc : ec.created_at = some sc) (hsu : ec.updated_at = some su) (hscu : sc ≤ su)
    (hmax : max cc cu ≤ max sc su)
    (hts : ∀ c ∈ cars, c.updatedAt.isSome = true ∧ c.updatedAt.getD 0 ≤ t1) :
    ((migrateCar optimize t2 imageDocs car st).st.supaCars = st.supaCars ∧
     (migrateCar optimize t2 imageDocs car st).st.storage = st.storage ∧
     (migrateCar optimize t2 imageDocs car st).uploads = 0) ∧
    ((migrateBatch optimize t2 imageDocs cars
        (migrateBatch optimize t1 imageDocs cars st0).1).1.supaCars =
      (migrateBatch optimize t1 imageDocs cars st0).1.supaCars ∧
     (migrateBatch optimize t2 imageDocs cars
        (migrateBatch optimize t1 imageDocs cars st0).1).1.storage =
      (migrateBatch optimize t1 imageDocs cars st0).1.storage ∧
     (migrateBatch optimize t2 imageDocs cars
        (migrateBatch optimize t1 imageDocs cars st0).1).2 = 0) := by
  constructor
  · have hcusu : cu ≤ su := by
      rw [Nat.max_eq_right hccu, Nat.max_eq_right hscu] at hmax
      exact hmax
    have hskipB : migrateSkipB car ec = true := by
      unfold migrateSkipB mongoTimestampOf supabaseTimestampOf
      rw [hcu, hsu]
      simp [hcusu]
    obtain ⟨h1, h2, _, h4⟩ := migrateCar_skip_eval optimize t2 imageDocs car st ec hfind hskipB
    exact ⟨h1, h2, h4⟩
  · have hts2 : ∀ c ∈ cars.filter (fun c => c.linked = false),
        ∃ m, mongoTimestampOf c = some m ∧ m ≤ t1 := by
      intro c hc
      obtain ⟨h1, h2⟩ := hts c (List.mem_filter.mp hc).1
      obtain ⟨u, hu⟩ := Option.isSome_iff_exists.mp h1
      refine ⟨u, ?_, ?_⟩
      · unfold mongoTimestampOf
        rw [hu]
      · rw [hu] at h2
        simpa using h2
    have hbound := migrateCars_after_run_bound optimize t1 imageDocs
      (cars.filter (fun c => c.linked = false)) st0 hts2
    have hskipAll : ∀ c ∈ cars.filter (fun c => c.linked = false),
        migrateSkips c
          (migrateCars optimize t1 imageDocs (cars.filter (fun c => c.linked = false)) st0).1
          = true := by
      intro c hc
      obtain ⟨ec2, hfind2, m, hm, hble⟩ := hbound c hc
      rw [migrateSkips_eq_true_iff]
      refine ⟨ec2, hfind2, ?_⟩
      unfold migrateSkipB
      rw [hm]
      exact decide_eq_true hble
    have hfinal := migrateCars_all_skip optimize t2 imageDocs
      (cars.filter (fun c => c.linked = false))
      (migrateCars optimize t1 imageDocs (cars.filter (fun c => c.linked = false)) st0).1
      hskipAll
    simp only [migrateBatch]
    exact ⟨hfinal.1, hfinal.2.1, hfinal.2.2.2⟩

/-- C3 witness: the idempotency theorem instantiated at a concrete legacy
store (one origin car) and a canonical state whose row is newer. -/
theorem migration_idempotent_witness :
    (migrateCar (fun b => b) 200 [⟨5, [9]⟩] carC1 migSkipSt).uploads = 0 ∧
    (migrateBatch (fun b => b) 200 [⟨5, [9]⟩] [carC1]
        (migrateBatch (fun b => b) 100 [⟨5, [9]⟩] [carC1] migEmpty).1).1.supaCars =
      (migrateBatch (fun b => b) 100 [⟨5, [9]⟩] [carC1] migEmpty).1.supaCars ∧
    (migrateBatch (fun b => b) 200 [⟨5, [9]⟩] [carC1]
        (migrateBatch (fun b => b) 100 [⟨5, [9]⟩] [carC1] migEmpty).1).2 = 0 :=
  have h := migration_idempotent (fun b => b) 100 200 [⟨5, [9]⟩] [carC1] migEmpty
    carC1 migSkipSt ⟨exVin, [], false, some 30, some 40⟩ 10 20 30 40
    (by decide) (by decide) (by decide) (by decide) (by decide) (by decide) (by decide)
    (by decide) (by decide)
  ⟨h.1.2.2, h.2.1, h.2.2.2⟩

end ImageServer
